import Mathlib

/-!
Verification of `scripts/ttl_to_csv.py`: a shallow embedding in Lean 4 of the
pipeline that converts SPARQL-example Turtle files into a CSV table, together
with theorems settling the specification claims about it.

Modelling conventions:
* RDF terms (`rdflib` `URIRef` / `BNode` / `Literal`) become the inductive
  `PyTerm`; `str(term)` becomes `pyStr`.
* A loaded graph is a list of triples; `graph.objects(s, p)` and
  `graph.subjects(RDF.type, SH.SPARQLExecutable)` become list filters, so the
  graph's (unordered in rdflib, but fixed per run) iteration order is the list
  order.
* Python exceptions (`ValueError`, `SystemExit`) become `Except String`;
  an `Except.error` result corresponds to the process aborting with a
  non-zero exit status before any further output is produced.
* Python strings are Lean `String`s; `str.strip()`, `str.lower()`,
  `str.isdigit()`, `int()`, `Path.suffix` and `Path.stem` are modelled
  character-wise below.  Unicode-dependent behaviour is modelled faithfully
  for the code points exercised in this development and documented at each
  definition.
-/

/-- An RDF term as held by rdflib: a URI reference, a blank node, or a
(possibly language-tagged) literal. -/
inductive PyTerm : Type where
  | uri (s : String)
  | bnode (id : String)
  | lit (text : String) (lang : Option String)
deriving DecidableEq, Repr

/-- Python `str(term)`: the URI text, the blank-node label, or the literal's
lexical form. -/
def pyStr : PyTerm → String
  | .uri s => s
  | .bnode i => i
  | .lit t _ => t

/-- The predicates of the vocabulary recognised by the script: `rdf:type`,
`rdfs:comment`, `sh:select`, `sh:ask`, `sh:construct`, `spex:describe`. -/
inductive RdfPred : Type where
  | rdfType
  | rdfsComment
  | shSelect
  | shAsk
  | shConstruct
  | spexDescribe
deriving DecidableEq, Repr

/-- One RDF statement. -/
structure Triple : Type where
  subj : PyTerm
  pred : RdfPred
  obj : PyTerm
deriving DecidableEq, Repr

/-- A loaded graph: the triples of one parsed Turtle file, in iteration
order. -/
abbrev Graph : Type := List Triple

/-- The `sh:SPARQLExecutable` class marker used in `rdf:type` statements. -/
def shSPARQLExecutable : PyTerm := .uri "http://www.w3.org/ns/shacl#SPARQLExecutable"

/-- Model of `graph.objects(s, p)`: the objects of all triples with subject `s` and
predicate `p`, in graph iteration order. -/
def objectsOf (g : Graph) (s : PyTerm) (p : RdfPred) : List PyTerm :=
  (g.filter fun t => decide (t.subj = s ∧ t.pred = p)).map Triple.obj

/-- Model of `graph.subjects(RDF.type, SH.SPARQLExecutable)`: the subjects declared to
be SPARQL executables, in graph iteration order. -/
def executableSubjects (g : Graph) : List PyTerm :=
  (g.filter fun t => decide (t.pred = .rdfType ∧ t.obj = shSPARQLExecutable)).map Triple.subj

/-- The `QUERY_PREDICATES` tuple: the fixed priority order in which query-body
predicates are tried. -/
def QUERY_PREDICATES : List RdfPred := [.shSelect, .shAsk, .shConstruct, .spexDescribe]

/-- The characters stripped by Python `str.strip()` with no argument
(restricted to the ASCII whitespace characters; the Unicode-only whitespace
code points never appear in this development). -/
def pyIsSpace (c : Char) : Bool :=
  c = ' ' ∨ c = '\t' ∨ c = '\n' ∨ c = '\x0d' ∨ c = '\x0b' ∨ c = '\x0c'

/-- Python `s.strip()`: remove leading and trailing whitespace. -/
def pyStrip (s : String) : String :=
  String.mk (((s.data.dropWhile pyIsSpace).reverse.dropWhile pyIsSpace).reverse)

/-- Python `sep in s` for a single-character separator. -/
def pyContains (s : String) (c : Char) : Bool :=
  s.data.contains c

/-- The segment of `l` after the last occurrence of `c` (all of `l` when `c`
does not occur): the list-level core of Python `s.rsplit(c, 1)[-1]`. -/
def afterLastAux (c : Char) (l : List Char) : List Char :=
  ((l.reverse.takeWhile fun x => x ≠ c).reverse)

/-- Python `s.rsplit(c, 1)[-1]` for a single-character separator. -/
def afterLast (c : Char) (s : String) : String :=
  String.mk (afterLastAux c s.data)

/-- Model of `extract_identifier`, with the subject's textual form and the file's stem
passed explicitly:

    text = str(subject).strip()
    for separator in ("#", "/"):
        if separator in text:
            text = text.rsplit(separator, 1)[-1]
    return text or ttl_file.stem
-/
def extract_identifier (text stem : String) : String :=
  let t0 := pyStrip text
  let t1 := if pyContains t0 '#' then afterLast '#' t0 else t0
  let t2 := if pyContains t1 '/' then afterLast '/' t1 else t1
  if t2 = "" then stem else t2

/-- The loop body of `pick_comment`, with the pending `fallback` made
explicit.  Non-literal nodes are skipped; an `en`-tagged literal is returned
at once; otherwise the first literal seen is remembered as the fallback and,
at the end, returned only when non-empty (Python truthiness), the file stem
standing in otherwise. -/
def pickCommentAux (stem : String) : List PyTerm → Option String → String
  | [], fb =>
      match fb with
      | some t => if t = "" then stem else t
      | none => stem
  | c :: cs, fb =>
      match c with
      | .lit t lang =>
          if lang = some "en" then t
          else pickCommentAux stem cs (match fb with | none => some t | some f => some f)
      | _ => pickCommentAux stem cs fb

/-- Model of `pick_comment(comments, ttl_file)` with `ttl_file.stem` passed
explicitly. -/
def pick_comment (comments : List PyTerm) (stem : String) : String :=
  pickCommentAux stem comments none

/-- The loop of `pick_query` over the remaining query predicates:
`next(graph.objects(subject, predicate), None)` is the head of the object
list; the first predicate with a value wins, and exhausting the list raises
`ValueError` (modelled as `Except.error`) naming the file and the subject. -/
def pickQueryAux (g : Graph) (s : PyTerm) (ttlFile : String) : List RdfPred → Except String String
  | [] => .error ("No SPARQL query found in " ++ ttlFile ++ " for subject " ++ pyStr s)
  | p :: ps =>
      match (objectsOf g s p).head? with
      | some o => .ok (pyStr o)
      | none => pickQueryAux g s ttlFile ps

/-- Model of `pick_query(graph, subject, ttl_file)`, with `str(ttl_file)` passed as a
string. -/
def pick_query (g : Graph) (s : PyTerm) (ttlFile : String) : Except String String :=
  pickQueryAux g s ttlFile QUERY_PREDICATES

/-- The `ExampleRow` dataclass. -/
structure ExampleRow : Type where
  identifier : String
  backend_id : Int
  name : String
  query : String
deriving DecidableEq, Repr

/-- Model of `ExampleRow.as_csv_row(include_identifier)`: the six-column CSV
projection. -/
def ExampleRow.as_csv_row (r : ExampleRow) (include_identifier : Bool) : List String :=
  [if include_identifier then r.identifier else "", toString r.backend_id, r.name, r.query, "", "~"]

/-- Model of `iter_examples(ttl_file, backend_id)` on an already-loaded graph, with
`str(ttl_file)` and `ttl_file.stem` passed explicitly.  The generator is
consumed eagerly by `rows.extend(...)` in `main`, and an uncaught
`ValueError` from `pick_query` aborts the whole iteration, which `mapM` over
`Except` reproduces. -/
def iter_examples (g : Graph) (ttlFile stem : String) (backendId : Int) :
    Except String (List ExampleRow) :=
  (executableSubjects g).mapM fun s => do
    let q ← pick_query g s ttlFile
    pure { identifier := extract_identifier (pyStr s) stem
           backend_id := backendId
           name := pick_comment (objectsOf g s .rdfsComment) stem
           query := q }

/-- Classification of a character for Python's `str.isdigit` / `int()`
semantics, restricted to the code points exercised in this development:

* `decimal v` — Unicode `Nd` (decimal digit) characters, accepted by both
  `str.isdigit` and `int()`: ASCII `0`-`9` and the Arabic-Indic digits
  `U+0660`-`U+0669`;
* `digitOnly` — characters with Unicode property `Numeric_Type=Digit` that
  are not decimal digits, accepted by `str.isdigit` but rejected by `int()`:
  the superscript digits `U+00B9`, `U+00B2`, `U+00B3`;
* `notDigit` — everything else (all remaining code points are treated as
  non-digits; none of the theorems below evaluates the classifier outside
  the listed ranges).
-/
inductive DigitClass : Type where
  | decimal (v : Nat)
  | digitOnly
  | notDigit
deriving DecidableEq, Repr

/-- The character classifier described at `DigitClass`. -/
def charDigitClass (c : Char) : DigitClass :=
  if '0' ≤ c ∧ c ≤ '9' then .decimal (c.toNat - '0'.toNat)
  else if 0x660 ≤ c.toNat ∧ c.toNat ≤ 0x669 then .decimal (c.toNat - 0x660)
  else if c.toNat = 0xB9 ∨ c.toNat = 0xB2 ∨ c.toNat = 0xB3 then .digitOnly
  else .notDigit

/-- Python `s.isdigit()`: non-empty and every character is a digit
(decimal digits and `Numeric_Type=Digit` characters both count). -/
def pyIsdigit (s : String) : Bool :=
  !s.data.isEmpty && s.data.all fun c => charDigitClass c ≠ .notDigit

/-- The numeric value of a character accepted by `int()`, when any. -/
def decimalVal (c : Char) : Option Nat :=
  match charDigitClass c with
  | .decimal v => some v
  | _ => none

/-- Python `int(s)` restricted to strings of digit characters (the only way
`natural_sort_key` reaches it): every character must be a *decimal* digit,
otherwise `ValueError` (modelled as `none`). -/
def pyInt (s : String) : Option Nat :=
  if s.data.isEmpty then none
  else (s.data.mapM decimalVal).map fun ds => ds.foldl (fun acc d => 10 * acc + d) 0

/-- The two-tier sort key produced by `natural_sort_key`: the Python tuples
`(0, int(value))` and `(1, value)`. -/
inductive SortKey : Type where
  | numeric (n : Nat)
  | textual (s : String)
deriving DecidableEq, Repr

/-- Python tuple comparison on the two key shapes: the leading tier `0`/`1`
is compared first, so an integer is never compared with a string. -/
def keyLE : SortKey → SortKey → Bool
  | .numeric a, .numeric b => decide (a ≤ b)
  | .numeric _, .textual _ => true
  | .textual _, .numeric _ => false
  | .textual a, .textual b => decide (a ≤ b)

/-- Model of `natural_sort_key(value)`:

    if value.isdigit():
        return (0, int(value))
    return (1, value)

`int(value)` raises `ValueError` on `isdigit`-accepted characters that are
not decimal digits (Python quotes the offending literal in the message; the
quoting is elided here). -/
def natural_sort_key (value : String) : Except String SortKey :=
  if pyIsdigit value then
    match pyInt value with
    | some n => .ok (.numeric n)
    | none => .error ("invalid literal for int() with base 10: " ++ value)
  else .ok (.textual value)

/-- Stable insertion of `x` into `l`: `x` is placed before the first element
`y` with `le x y`, so it lands after every element already ahead of it and
before any element it ties with. -/
def insertLe {α : Type} (le : α → α → Bool) (x : α) : List α → List α
  | [] => [x]
  | y :: ys => if le x y then x :: y :: ys else y :: insertLe le x ys

/-- Stable insertion sort.  CPython's `list.sort` is a stable sort by the
(pre-computed) key sequence; a stable sort by a total preorder has a unique
result, so this models it exactly. -/
def isortLe {α : Type} (le : α → α → Bool) : List α → List α
  | [] => []
  | x :: xs => insertLe le x (isortLe le xs)

/-- Model of `rows.sort(key=lambda row: natural_sort_key(row.identifier))`: compute
every key in list order (CPython decorates the list with keys first, so a
`ValueError` from any key computation aborts the sort and the run), then
stably sort by `keyLE` on the keys. -/
def sortKeyed (rows : List ExampleRow) : Except String (List ExampleRow) :=
  (rows.mapM fun r => (natural_sort_key r.identifier).map fun k => (k, r)).map
    fun keyed => (isortLe (fun a b => keyLE a.1 b.1) keyed).map Prod.snd

/-- Python `str.lower()` restricted to ASCII letters (the only case-folding
this pipeline performs is on file extensions). -/
def pyCharLower (c : Char) : Char :=
  if 'A' ≤ c ∧ c ≤ 'Z' then Char.ofNat (c.toNat + 32) else c

/-- Python `s.lower()`, character-wise. -/
def pyLower (s : String) : String :=
  String.mk (s.data.map pyCharLower)

/-- Model of `pathlib.Path(name).suffix`: the extension of the final path component.
CPython returns `name[i:]` where `i` is the index of the last `.`, provided
`0 < i < len(name) - 1`, and `""` otherwise (so `".ttl"` and `"a."` have no
suffix). -/
def pySuffix (n : String) : String :=
  let l := n.data
  let ext := afterLastAux '.' l
  if l.contains '.' && !ext.isEmpty && decide (ext.length + 1 < l.length) then
    String.mk ('.' :: ext)
  else ""

/-- Model of `pathlib.Path(name).stem`: the final component with its suffix
removed. -/
def pyStem (n : String) : String :=
  String.mk (n.data.take (n.data.length - (pySuffix n).data.length))

/-- One immediate entry of the input directory as seen by
`examples_dir.iterdir()`: its final name component, whether it is a regular
file, and — for the Turtle files the run goes on to parse — the triple graph
`Graph().parse(path)` yields for it. -/
structure DirEntry : Type where
  name : String
  isFile : Bool
  graph : Graph
deriving DecidableEq, Repr

/-- The generator filter inside `main`'s `sorted(...)` call:
`path.is_file() and path.suffix.lower() == ".ttl"`. -/
def ttlFilter (entries : List DirEntry) : List DirEntry :=
  entries.filter fun e => e.isFile && decide (pyLower (pySuffix e.name) = ".ttl")

/-- Model of `sorted(...)` over the filtered entries.  Python sorts the `Path` values,
i.e. the path strings; with a common directory part this is lexicographic
order on the entry names. -/
def sortedTtlEntries (entries : List DirEntry) : List DirEntry :=
  isortLe (fun a b => decide (a.name ≤ b.name)) (ttlFilter entries)

/-- The header row written by `main`. -/
def headerFields : List String :=
  ["id", "backend", "name", "query", "Structure of sortKey [idcode]", "sortKey"]

/-- The `csv` module's field escaping: the quote character is doubled. -/
def csvEscape (f : String) : String :=
  String.mk (f.data.flatMap fun c => if c = '"' then ['"', '"'] else [c])

/-- One field as written under `quoting=csv.QUOTE_ALL`: always wrapped in
double quotes. -/
def csvQuote (f : String) : String :=
  "\"" ++ csvEscape f ++ "\""

/-- One CSV record as written by `csv.writer(..., quoting=csv.QUOTE_ALL,
lineterminator="\n").writerow`: every field quoted, fields joined by commas,
record terminated by a single newline. -/
def renderRow (fields : List String) : String :=
  String.intercalate "," (fields.map csvQuote) ++ "\n"

/-- The whole CSV stream: the rendered records concatenated. -/
def renderCsv (rows : List (List String)) : String :=
  String.join (rows.map renderRow)

/-- The `--prefix-id-in-title` rewrite applied to one row:
`row.name = f"ex:{row.identifier} {row.name}"`. -/
def titleWithId (r : ExampleRow) : ExampleRow :=
  { r with name := "ex:" ++ r.identifier ++ " " ++ r.name }

/-- Model of `main` up to and including the global sort: the directory check, the
`.ttl` discovery check, per-file extraction in sorted file order, row
concatenation, and the stable natural-order sort.  The filesystem is passed
as `none` when `examples_dir.is_dir()` is false and as the list of immediate
directory entries otherwise; `Except.error` corresponds to `SystemExit` /
an uncaught exception, i.e. a non-zero exit before the output destination is
ever opened. -/
def sortedRows (dirName : String) (fs : Option (List DirEntry)) (backendId : Int) :
    Except String (List ExampleRow) :=
  match fs with
  | none => .error ("Directory not found: " ++ dirName)
  | some entries =>
      let files := sortedTtlEntries entries
      if files.isEmpty then .error ("No .ttl files found in " ++ dirName)
      else do
        let rowss ← files.mapM fun e =>
          iter_examples e.graph (dirName ++ "/" ++ e.name) (pyStem e.name) backendId
        sortKeyed rowss.flatten

/-- Model of `main` up to the CSV writing: after the sort, the optional
`--prefix-id-in-title` rewrite of every row's name. -/
def finalRows (dirName : String) (fs : Option (List DirEntry)) (backendId : Int)
    (idInTitle : Bool) : Except String (List ExampleRow) :=
  (sortedRows dirName fs backendId).map fun rows =>
    if idInTitle then rows.map titleWithId else rows

/-- The whole of `main` at the value level: on success, the full text written
to the output destination (header row, then one record per example row, the
identifier column suppressed exactly when `--prefix-id-in-title` is on); on
error, the message of the abort.  The output destination is opened only in
the success case, after every check has passed. -/
def runMain (dirName : String) (fs : Option (List DirEntry)) (backendId : Int)
    (idInTitle : Bool) : Except String String :=
  (finalRows dirName fs backendId idInTitle).map fun rows =>
    renderCsv (headerFields :: rows.map fun r => r.as_csv_row !idInTitle)

/-- The segment after the last occurrence of `c`, computed by a single
left-to-right pass (restart on every separator): an independent rendering of
the claim's "keep only the segment after the last separator", used to state
claim C2 as a refinement. -/
def afterLastFold (c : Char) (l : List Char) : List Char :=
  l.foldl (fun acc x => if x = c then [] else acc ++ [x]) []

/-- String form of `afterLastFold`. -/
def lastSegment (c : Char) (s : String) : String :=
  String.mk (afterLastFold c s.data)

/-- Identifier extraction as worded by the (amended) claim C2: strip the
subject text, then one pass of `#` (keep the segment after the last `#` if
any), then one pass of `/`, falling back to the file stem when the result is
empty.  Written with `lastSegment` so that comparing it with
`extract_identifier` has content. -/
def extractIdentifierSpec (text stem : String) : String :=
  let t0 := pyStrip text
  let t1 := if pyContains t0 '#' then lastSegment '#' t0 else t0
  let t2 := if pyContains t1 '/' then lastSegment '/' t1 else t1
  if t2 = "" then stem else t2

/-- Decidable equality for `Except`, used to evaluate the embedding at
concrete inputs. -/
instance {α β : Type} [DecidableEq α] [DecidableEq β] : DecidableEq (Except α β) := fun a b =>
  match a, b with
  | .ok x, .ok y =>
      if h : x = y then .isTrue (by rw [h]) else .isFalse fun hc => h (Except.ok.inj hc)
  | .error x, .error y =>
      if h : x = y then .isTrue (by rw [h]) else .isFalse fun hc => h (Except.error.inj hc)
  | .ok _, .error _ => .isFalse fun hc => Except.noConfusion hc
  | .error _, .ok _ => .isFalse fun hc => Except.noConfusion hc

/-- The claim's file-discovery condition: the name ends in `pat`, compared
case-insensitively. -/
def endsWithCI (n pat : String) : Prop :=
  (pat.data.map pyCharLower) <:+ (n.data.map pyCharLower)

instance (n pat : String) : Decidable (endsWithCI n pat) :=
  inferInstanceAs (Decidable (_ <:+ _))

theorem except_bind_ok {ε α β : Type} {a : Except ε α} {f : α → Except ε β} {y : β}
    (h : (a >>= f) = .ok y) : ∃ x, a = .ok x ∧ f x = .ok y := by
  cases a with
  | ok x => exact ⟨x, rfl, h⟩
  | error e => simp [Bind.bind, Except.bind] at h

theorem except_map_ok {ε α β : Type} {a : Except ε α} {f : α → β} {y : β}
    (h : a.map f = .ok y) : ∃ x, a = .ok x ∧ f x = y := by
  cases a with
  | ok x =>
      refine ⟨x, rfl, ?_⟩
      simpa [Except.map] using h
  | error e => simp [Except.map] at h

theorem except_pure_ok {ε β : Type} {x y : β} (h : (pure x : Except ε β) = .ok y) : x = y :=
  Except.ok.inj h

theorem mapM_ok_forall {ε α β : Type} (f : α → Except ε β) :
    ∀ (l : List α) (ys : List β), l.mapM f = .ok ys → ∀ x ∈ l, ∃ y, f x = .ok y := by
  intro l
  induction l with
  | nil => simp
  | cons a as ih =>
      intro ys h x hx
      rw [List.mapM_cons] at h
      obtain ⟨b, hb, h2⟩ := except_bind_ok h
      obtain ⟨bs, hbs, _⟩ := except_bind_ok h2
      rcases List.mem_cons.mp hx with rfl | hx
      · exact ⟨b, hb⟩
      · exact ih bs hbs x hx

theorem mapM_ok_mem {ε α β : Type} (f : α → Except ε β) :
    ∀ (l : List α) (ys : List β), l.mapM f = .ok ys → ∀ y ∈ ys, ∃ x ∈ l, f x = .ok y := by
  intro l
  induction l with
  | nil =>
      intro ys h y hy
      simp only [List.mapM_nil] at h
      cases except_pure_ok h
      simp at hy
  | cons a as ih =>
      intro ys h y hy
      rw [List.mapM_cons] at h
      obtain ⟨b, hb, h2⟩ := except_bind_ok h
      obtain ⟨bs, hbs, h3⟩ := except_bind_ok h2
      cases except_pure_ok h3
      rcases List.mem_cons.mp hy with rfl | hy
      · exact ⟨a, List.mem_cons_self a as, hb⟩
      · obtain ⟨x, hxl, hxy⟩ := ih bs hbs y hy
        exact ⟨x, List.mem_cons_of_mem a hxl, hxy⟩

theorem mapM_keyed_props :
    ∀ (rows : List ExampleRow) (keyed : List (SortKey × ExampleRow)),
      rows.mapM (fun r => (natural_sort_key r.identifier).map fun k => (k, r)) = .ok keyed →
      keyed.map Prod.snd = rows ∧ ∀ x ∈ keyed, natural_sort_key x.2.identifier = .ok x.1 := by
  intro rows
  induction rows with
  | nil =>
      intro keyed h
      simp only [List.mapM_nil] at h
      cases except_pure_ok h
      simp
  | cons r rs ih =>
      intro keyed h
      rw [List.mapM_cons] at h
      obtain ⟨b, hb, h2⟩ := except_bind_ok h
      obtain ⟨bs, hbs, h3⟩ := except_bind_ok h2
      cases except_pure_ok h3
      obtain ⟨k, hk, hkb⟩ := except_map_ok hb
      obtain ⟨hmap, hmem⟩ := ih bs hbs
      subst hkb
      refine ⟨by simp [hmap], ?_⟩
      intro x hx
      rcases List.mem_cons.mp hx with rfl | hx
      · exact hk
      · exact hmem x hx

theorem keyLE_refl (k : SortKey) : keyLE k k = true := by
  cases k <;> simp [keyLE]

theorem keyLE_trans {a b c : SortKey} (h1 : keyLE a b = true) (h2 : keyLE b c = true) :
    keyLE a c = true := by
  cases a <;> cases b <;> cases c <;> simp_all [keyLE]
  · exact le_trans h1 h2
  · exact le_trans h1 h2

theorem keyLE_total {a b : SortKey} (h : keyLE a b = false) : keyLE b a = true := by
  cases a <;> cases b <;> simp_all [keyLE] <;> exact le_of_lt h

theorem insertLe_perm {α : Type} (le : α → α → Bool) (x : α) (l : List α) :
    List.Perm (insertLe le x l) (x :: l) := by
  induction l with
  | nil => exact List.Perm.refl _
  | cons y ys ih =>
      by_cases h : le x y
      · simp [insertLe, h]
      · simp only [insertLe, h, if_neg, Bool.false_eq_true, if_false]
        exact (ih.cons y).trans (List.Perm.swap x y ys)

theorem isortLe_perm {α : Type} (le : α → α → Bool) (l : List α) :
    List.Perm (isortLe le l) l := by
  induction l with
  | nil => exact List.Perm.refl _
  | cons x xs ih => exact (insertLe_perm le x _).trans (ih.cons x)

theorem mem_insertLe {α : Type} {le : α → α → Bool} {x a : α} {l : List α} :
    a ∈ insertLe le x l ↔ a ∈ x :: l :=
  (insertLe_perm le x l).mem_iff

theorem pairwise_insertLe {α : Type} {le : α → α → Bool}
    (htrans : ∀ a b c, le a b = true → le b c = true → le a c = true)
    (htot : ∀ a b, le a b = false → le b a = true)
    (x : α) {l : List α} (hl : l.Pairwise fun a b => le a b = true) :
    (insertLe le x l).Pairwise fun a b => le a b = true := by
  induction l with
  | nil => simp [insertLe]
  | cons y ys ih =>
      rcases List.pairwise_cons.mp hl with ⟨hy, hys⟩
      by_cases h : le x y
      · have he : insertLe le x (y :: ys) = x :: y :: ys := by simp [insertLe, h]
        rw [he]
        refine List.pairwise_cons.mpr ⟨?_, hl⟩
        intro b hb
        rcases List.mem_cons.mp hb with rfl | hb
        · exact h
        · exact htrans x y b h (hy b hb)
      · have he : insertLe le x (y :: ys) = y :: insertLe le x ys := by simp [insertLe, h]
        rw [he]
        refine List.pairwise_cons.mpr ⟨?_, ih hys⟩
        intro b hb
        rcases List.mem_cons.mp (mem_insertLe.mp hb) with rfl | hb
        · exact htot _ y (by simpa using h)
        · exact hy b hb

theorem pairwise_isortLe {α : Type} {le : α → α → Bool}
    (htrans : ∀ a b c, le a b = true → le b c = true → le a c = true)
    (htot : ∀ a b, le a b = false → le b a = true)
    (l : List α) : (isortLe le l).Pairwise fun a b => le a b = true := by
  induction l with
  | nil => simp [isortLe]
  | cons x xs ih => exact pairwise_insertLe htrans htot x ih

theorem filter_insertLe_pos {α : Type} {le : α → α → Bool} (p : α → Bool) (x : α)
    (l : List α) (hx : p x = true) (hp : ∀ y, p y = true → le x y = true) :
    (insertLe le x l).filter p = x :: l.filter p := by
  induction l with
  | nil => simp [insertLe, hx]
  | cons y ys ih =>
      by_cases h : le x y
      · simp [insertLe, h, hx]
      · have hpy : p y = false := by
          cases hpy : p y
          · rfl
          · exact absurd (hp y hpy) h
        simp [insertLe, h, hpy, ih]

theorem filter_insertLe_neg {α : Type} {le : α → α → Bool} (p : α → Bool) (x : α)
    (l : List α) (hx : p x = false) :
    (insertLe le x l).filter p = l.filter p := by
  induction l with
  | nil => simp [insertLe, hx]
  | cons y ys ih =>
      by_cases h : le x y
      · simp [insertLe, h, hx]
      · by_cases hpy : p y
        · simp [insertLe, h, hpy, ih]
        · simp only [Bool.not_eq_true] at hpy
          simp [insertLe, h, hpy, ih]

theorem filter_isortLe {α : Type} {le : α → α → Bool} (p : α → Bool)
    (hp : ∀ a b, p a = true → p b = true → le a b = true) (l : List α) :
    (isortLe le l).filter p = l.filter p := by
  induction l with
  | nil => rfl
  | cons x xs ih =>
      by_cases hx : p x
      · rw [show isortLe le (x :: xs) = insertLe le x (isortLe le xs) from rfl,
            filter_insertLe_pos p x _ hx (fun y hy => hp x y hx hy), List.filter_cons_of_pos hx, ih]
      · simp only [Bool.not_eq_true] at hx
        rw [show isortLe le (x :: xs) = insertLe le x (isortLe le xs) from rfl,
            filter_insertLe_neg p x _ hx, List.filter_cons_of_neg (by simp [hx]), ih]

theorem pickCommentAux_en_first (stem t : String) (post : List PyTerm) :
    ∀ (pre : List PyTerm) (fb : Option String),
      (∀ c ∈ pre, ∀ u, c ≠ PyTerm.lit u (some "en")) →
      pickCommentAux stem (pre ++ PyTerm.lit t (some "en") :: post) fb = t := by
  intro pre
  induction pre with
  | nil => intro fb _; simp [pickCommentAux]
  | cons c cs ih =>
      intro fb hpre
      have hcs : ∀ c ∈ cs, ∀ u, c ≠ PyTerm.lit u (some "en") := fun c hc =>
        hpre c (List.mem_cons_of_mem _ hc)
      cases c with
      | lit u lang =>
          have hne : ¬(lang = some "en") := fun h =>
            hpre (PyTerm.lit u lang) (List.mem_cons_self _ _) u (by rw [h])
          simp only [List.cons_append, pickCommentAux, hne, if_false]
          exact ih _ hcs
      | uri s0 =>
          simp only [List.cons_append, pickCommentAux]
          exact ih fb hcs
      | bnode s0 =>
          simp only [List.cons_append, pickCommentAux]
          exact ih fb hcs

theorem pickCommentAux_no_en_some (stem t0 : String) :
    ∀ (l : List PyTerm),
      (∀ c ∈ l, ∀ u, c ≠ PyTerm.lit u (some "en")) →
      pickCommentAux stem l (some t0) = if t0 = "" then stem else t0 := by
  intro l
  induction l with
  | nil => intro _; rfl
  | cons c cs ih =>
      intro hl
      have hcs : ∀ c ∈ cs, ∀ u, c ≠ PyTerm.lit u (some "en") := fun c hc =>
        hl c (List.mem_cons_of_mem _ hc)
      cases c with
      | lit u lang =>
          have hne : ¬(lang = some "en") := fun h =>
            hl (PyTerm.lit u lang) (List.mem_cons_self _ _) u (by rw [h])
          simp only [pickCommentAux, hne, if_false]
          exact ih hcs
      | uri s0 => exact ih hcs
      | bnode s0 => exact ih hcs

theorem pickCommentAux_skip_nonlit (stem : String) (rest : List PyTerm) :
    ∀ (pre : List PyTerm) (fb : Option String),
      (∀ c ∈ pre, ∀ u v, c ≠ PyTerm.lit u v) →
      pickCommentAux stem (pre ++ rest) fb = pickCommentAux stem rest fb := by
  intro pre
  induction pre with
  | nil => intro fb _; rfl
  | cons c cs ih =>
      intro fb hpre
      have hcs : ∀ c ∈ cs, ∀ u v, c ≠ PyTerm.lit u v := fun c hc =>
        hpre c (List.mem_cons_of_mem _ hc)
      cases c with
      | lit u lang =>
          exact absurd rfl (hpre (PyTerm.lit u lang) (List.mem_cons_self _ _) u lang)
      | uri s0 => exact ih fb hcs
      | bnode s0 => exact ih fb hcs

theorem pickCommentAux_empty_all (stem : String) :
    ∀ (l : List PyTerm) (fb : Option String), (fb = none ∨ fb = some "") →
      (∀ c ∈ l, ∀ t lang, c = PyTerm.lit t lang → t = "" ∧ lang ≠ some "en") →
      pickCommentAux stem l fb = stem := by
  intro l
  induction l with
  | nil =>
      intro fb hfb _
      rcases hfb with rfl | rfl <;> rfl
  | cons c cs ih =>
      intro fb hfb hl
      have hcs : ∀ c ∈ cs, ∀ t lang, c = PyTerm.lit t lang → t = "" ∧ lang ≠ some "en" :=
        fun c hc => hl c (List.mem_cons_of_mem _ hc)
      cases c with
      | lit u lang =>
          obtain ⟨hu, hlang⟩ := hl (PyTerm.lit u lang) (List.mem_cons_self _ _) u lang rfl
          subst hu
          simp only [pickCommentAux, hlang, if_false]
          rcases hfb with rfl | rfl
          · exact ih (some "") (Or.inr rfl) hcs
          · exact ih (some "") (Or.inr rfl) hcs
      | uri s0 => exact ih fb hfb hcs
      | bnode s0 => exact ih fb hfb hcs

theorem ite_ne_empty (stem t2 : String) (h : stem ≠ "") :
    (if t2 = "" then stem else t2) ≠ "" := by
  split
  · exact h
  · assumption

theorem extract_identifier_ne_empty (text stem : String) (h : stem ≠ "") :
    extract_identifier text stem ≠ "" :=
  ite_ne_empty stem _ h

theorem pick_query_none (g : Graph) (s : PyTerm) (f : String)
    (h1 : objectsOf g s .shSelect = []) (h2 : objectsOf g s .shAsk = [])
    (h3 : objectsOf g s .shConstruct = []) (h4 : objectsOf g s .spexDescribe = []) :
    pick_query g s f = .error ("No SPARQL query found in " ++ f ++ " for subject " ++ pyStr s) := by
  simp [pick_query, QUERY_PREDICATES, pickQueryAux, h1, h2, h3, h4]

theorem iter_examples_no_query (g : Graph) (f stem : String) (b : Int) (s : PyTerm)
    (hs : s ∈ executableSubjects g)
    (h1 : objectsOf g s .shSelect = []) (h2 : objectsOf g s .shAsk = [])
    (h3 : objectsOf g s .shConstruct = []) (h4 : objectsOf g s .spexDescribe = []) :
    ∀ rows, iter_examples g f stem b ≠ .ok rows := by
  intro rows hok
  obtain ⟨y, hy⟩ := mapM_ok_forall _ _ _ hok s hs
  obtain ⟨q, hq, _⟩ := except_bind_ok hy
  rw [pick_query_none g s f h1 h2 h3 h4] at hq
  cases hq

theorem iter_examples_row_shape (g : Graph) (f stem : String) (b : Int)
    (rows : List ExampleRow) (hok : iter_examples g f stem b = .ok rows) :
    ∀ r ∈ rows, ∃ s ∈ executableSubjects g, ∃ q,
      pick_query g s f = .ok q ∧
      r = { identifier := extract_identifier (pyStr s) stem
            backend_id := b
            name := pick_comment (objectsOf g s .rdfsComment) stem
            query := q } := by
  intro r hr
  obtain ⟨s, hs, hfs⟩ := mapM_ok_mem _ _ _ hok r hr
  obtain ⟨q, hq, hpure⟩ := except_bind_ok hfs
  exact ⟨s, hs, q, hq, (except_pure_ok hpure).symm⟩

theorem dropWhile_head_false {α : Type} (p : α → Bool) :
    ∀ (l : List α) (d : α) (ds : List α), l.dropWhile p = d :: ds → p d = false := by
  intro l
  induction l with
  | nil => intro d ds h; cases h
  | cons x xs ih =>
      intro d ds h
      by_cases hx : p x
      · rw [List.dropWhile_cons_of_pos hx] at h
        exact ih d ds h
      · rw [List.dropWhile_cons_of_neg hx] at h
        cases h
        simpa using hx

theorem afterLastAux_not_mem (c : Char) (l : List Char) : c ∉ afterLastAux c l := by
  intro hc
  have hc2 : c ∈ l.reverse.takeWhile fun x => x ≠ c := List.mem_reverse.mp hc
  have := List.mem_takeWhile_imp hc2
  simp at this

theorem afterLastAux_decomp (c : Char) (l : List Char) (h : c ∈ l) :
    ∃ pre, l = pre ++ c :: afterLastAux c l := by
  have hsplit : (l.reverse.takeWhile fun x => x ≠ c) ++ (l.reverse.dropWhile fun x => x ≠ c)
      = l.reverse := List.takeWhile_append_dropWhile _ _
  cases hdrop : l.reverse.dropWhile fun x => x ≠ c with
  | nil =>
      exfalso
      rw [hdrop, List.append_nil] at hsplit
      have hc : c ∈ l.reverse.takeWhile fun x => x ≠ c := by
        rw [hsplit]; exact List.mem_reverse.mpr h
      have := List.mem_takeWhile_imp hc
      simp at this
  | cons d ds =>
      have hpd := dropWhile_head_false _ _ _ _ hdrop
      have hdc : d = c := by simpa using hpd
      subst hdc
      refine ⟨ds.reverse, ?_⟩
      have hl : l = ((l.reverse.takeWhile fun x => x ≠ d) ++ d :: ds).reverse := by
        rw [← hdrop, hsplit, List.reverse_reverse]
      have hout : afterLastAux d l = (l.reverse.takeWhile fun x => x ≠ d).reverse := rfl
      rw [hout]
      conv_lhs => rw [hl]
      simp [List.reverse_append]

theorem afterLastAux_of_not_mem (c : Char) (l : List Char) (h : c ∉ l) :
    afterLastAux c l = l := by
  unfold afterLastAux
  have hself : (l.reverse.takeWhile fun x => x ≠ c) = l.reverse := by
    rw [List.takeWhile_eq_self_iff]
    intro x hx
    have hxc : x ≠ c := fun he => h (he ▸ List.mem_reverse.mp hx)
    simpa using hxc
  rw [hself, List.reverse_reverse]

theorem afterLastFold_eq (c : Char) (l : List Char) : afterLastFold c l = afterLastAux c l := by
  induction l using List.reverseRecOn with
  | nil => rfl
  | append_singleton xs x ih =>
      by_cases hx : x = c
      · subst hx
        simp [afterLastFold, afterLastAux, List.foldl_append]
      · have hstep : afterLastFold c (xs ++ [x]) = afterLastFold c xs ++ [x] := by
          simp [afterLastFold, List.foldl_append, hx]
        rw [hstep, ih]
        simp [afterLastAux, List.reverse_append, hx]

theorem map_lower_suffix_ttl (n : String) (h : pyLower (pySuffix n) = ".ttl") :
    endsWithCI n ".ttl" := by
  by_cases hcond : (n.data.contains '.' && !(afterLastAux '.' n.data).isEmpty
      && decide ((afterLastAux '.' n.data).length + 1 < n.data.length)) = true
  · have hsfx : pySuffix n = String.mk ('.' :: afterLastAux '.' n.data) := by
      simp only [pySuffix]
      rw [if_pos hcond]
    rw [hsfx] at h
    have hdata : ('.' :: afterLastAux '.' n.data).map pyCharLower = ".ttl".data :=
      congrArg String.data h
    have hmem : '.' ∈ n.data := by
      have hc1 : n.data.contains '.' = true := by
        simp only [Bool.and_eq_true] at hcond
        exact hcond.1.1
      simpa [List.contains_eq_any_beq, List.any_eq_true, eq_comm] using hc1
    obtain ⟨pre, hpre⟩ := afterLastAux_decomp '.' n.data hmem
    refine ⟨pre.map pyCharLower, ?_⟩
    calc pre.map pyCharLower ++ ".ttl".data.map pyCharLower
        = pre.map pyCharLower ++ ".ttl".data := by rfl
      _ = pre.map pyCharLower ++ ('.' :: afterLastAux '.' n.data).map pyCharLower := by
          rw [hdata]
      _ = (pre ++ '.' :: afterLastAux '.' n.data).map pyCharLower := by
          rw [List.map_append]
      _ = n.data.map pyCharLower := by rw [← hpre]
  · have hsfx : pySuffix n = "" := by
      simp only [pySuffix]
      rw [if_neg hcond]
    rw [hsfx] at h
    exact absurd h (by decide)

/-- C1: for every loaded graph and executable subject, query resolution
checks `sh:select`, `sh:ask`, `sh:construct`, `spex:describe` in that fixed
priority order and returns the text of the first predicate that has at least
one value; if none of the four has a value it produces the descriptive
`ValueError` naming the source file and the subject, and the per-file
iteration aborts (`iter_examples` never returns a row list) rather than
skipping the entity. -/
theorem c1_query_resolution_priority (g : Graph) (s : PyTerm) (f : String) :
    (∀ o rest, objectsOf g s .shSelect = o :: rest → pick_query g s f = .ok (pyStr o)) ∧
    (objectsOf g s .shSelect = [] → ∀ o rest, objectsOf g s .shAsk = o :: rest →
      pick_query g s f = .ok (pyStr o)) ∧
    (objectsOf g s .shSelect = [] → objectsOf g s .shAsk = [] →
      ∀ o rest, objectsOf g s .shConstruct = o :: rest → pick_query g s f = .ok (pyStr o)) ∧
    (objectsOf g s .shSelect = [] → objectsOf g s .shAsk = [] →
      objectsOf g s .shConstruct = [] → ∀ o rest, objectsOf g s .spexDescribe = o :: rest →
      pick_query g s f = .ok (pyStr o)) ∧
    (objectsOf g s .shSelect = [] → objectsOf g s .shAsk = [] →
      objectsOf g s .shConstruct = [] → objectsOf g s .spexDescribe = [] →
      pick_query g s f =
        .error ("No SPARQL query found in " ++ f ++ " for subject " ++ pyStr s)) ∧
    (∀ stem b, s ∈ executableSubjects g → objectsOf g s .shSelect = [] →
      objectsOf g s .shAsk = [] → objectsOf g s .shConstruct = [] →
      objectsOf g s .spexDescribe = [] → ∀ rows, iter_examples g f stem b ≠ .ok rows) := by
  refine ⟨?_, ?_, ?_, ?_, ?_, ?_⟩
  · intro o rest h
    simp [pick_query, QUERY_PREDICATES, pickQueryAux, h]
  · intro h1 o rest h
    simp [pick_query, QUERY_PREDICATES, pickQueryAux, h1, h]
  · intro h1 h2 o rest h
    simp [pick_query, QUERY_PREDICATES, pickQueryAux, h1, h2, h]
  · intro h1 h2 h3 o rest h
    simp [pick_query, QUERY_PREDICATES, pickQueryAux, h1, h2, h3, h]
  · intro h1 h2 h3 h4
    exact pick_query_none g s f h1 h2 h3 h4
  · intro stem b hs h1 h2 h3 h4
    exact iter_examples_no_query g f stem b s hs h1 h2 h3 h4

/-- Witness for C1 at a concrete graph: a subject with a `sh:select` value
resolves to that text, and on the empty graph resolution of the same subject
fails with the message naming the file and the subject. -/
theorem c1_witness :
    pick_query [⟨.uri "http://e/q#1", .shSelect, .lit "SELECT 1" none⟩]
        (.uri "http://e/q#1") "dir/a.ttl" = .ok "SELECT 1" ∧
    pick_query [] (.uri "http://e/q#1") "dir/a.ttl" =
      .error "No SPARQL query found in dir/a.ttl for subject http://e/q#1" := by
  constructor
  · exact (c1_query_resolution_priority _ _ _).1 (.lit "SELECT 1" none) [] (by decide)
  · exact (c1_query_resolution_priority [] (.uri "http://e/q#1") "dir/a.ttl").2.2.2.2.1
      (by decide) (by decide) (by decide) (by decide)

/-- Counterexample to C2 as stated: the subject text `" 7 "` contains
neither `#` nor `/`, so the claim says identifier extraction leaves it
unchanged, but `extract_identifier` first strips surrounding whitespace
(`str(subject).strip()`) and returns `"7"`. -/
theorem c2_counterexample :
    pyContains " 7 " '#' = false ∧ pyContains " 7 " '/' = false ∧
    extract_identifier " 7 " "base" = "7" ∧ (" 7 " : String) ≠ "7" := by
  decide

/-- C2 (amended): identifier extraction first strips leading and trailing
whitespace from the subject's textual form, then applies exactly one pass of
each separator in fixed order (`#` before `/`, keeping the segment after the
last occurrence), falling back to the file stem when the result is empty:
it coincides with `extractIdentifierSpec`, the claim's wording rendered with
an independent single-pass segment computation; `"http://ex.org/q#7"` yields
`"7"`, `"http://ex.org/a/b"` yields `"b"`, and a non-empty whitespace-free
text without `#` or `/` is returned unchanged. -/
theorem c2_identifier_extraction (text stem : String) :
    extract_identifier text stem = extractIdentifierSpec text stem ∧
    extract_identifier "http://ex.org/q#7" stem = "7" ∧
    extract_identifier "http://ex.org/a/b" stem = "b" ∧
    (pyStrip text = text → pyContains text '#' = false → pyContains text '/' = false →
      text ≠ "" → extract_identifier text stem = text) ∧
    (pyStrip text = "" → extract_identifier text stem = stem) := by
  refine ⟨?_, ?_, ?_, ?_, ?_⟩
  · simp only [extract_identifier, extractIdentifierSpec, afterLast, lastSegment,
      afterLastFold_eq]
  · rfl
  · rfl
  · intro h1 h2 h3 h4
    simp [extract_identifier, h1, h2, h3, h4]
  · intro h
    simp only [extract_identifier, h]
    rfl

/-- Witness for C2 at concrete inputs: a plain text without separators is
its own identifier. -/
theorem c2_witness : extract_identifier "abc" "s" = "abc" :=
  (c2_identifier_extraction "abc" "s").2.2.2.1 rfl rfl rfl (by decide)

/-- C3: the global sort stably orders the full row list by the two-tier
natural key of the row identifier: the result is a permutation, sorted under
`keyLE`, rows with equal keys keep their original relative order, every
all-digits identifier precedes every non-all-digits identifier, and the
identifiers `["10","2","a","1"]` sort to `["1","2","10","a"]`. -/
theorem c3_natural_sort (rows sorted : List ExampleRow) (h : sortKeyed rows = .ok sorted) :
    List.Perm sorted rows ∧
    sorted.Pairwise (fun a b => ∀ ka kb, natural_sort_key a.identifier = .ok ka →
      natural_sort_key b.identifier = .ok kb → keyLE ka kb = true) ∧
    (∀ k : SortKey,
      sorted.filter (fun r => decide (natural_sort_key r.identifier = .ok k)) =
        rows.filter (fun r => decide (natural_sort_key r.identifier = .ok k))) ∧
    sorted.Pairwise (fun a b => pyIsdigit a.identifier = false →
      pyIsdigit b.identifier = false) ∧
    sortKeyed [⟨"10", 69, "n", "q"⟩, ⟨"2", 69, "n", "q"⟩, ⟨"a", 69, "n", "q"⟩,
        ⟨"1", 69, "n", "q"⟩] =
      .ok [⟨"1", 69, "n", "q"⟩, ⟨"2", 69, "n", "q"⟩, ⟨"10", 69, "n", "q"⟩,
        ⟨"a", 69, "n", "q"⟩] := by
  obtain ⟨keyed, hkeyed, hF⟩ := except_map_ok h
  obtain ⟨hmap, hmem⟩ := mapM_keyed_props rows keyed hkeyed
  have htrans : ∀ a b c : SortKey × ExampleRow,
      keyLE a.1 b.1 = true → keyLE b.1 c.1 = true → keyLE a.1 c.1 = true :=
    fun _ _ _ => keyLE_trans
  have htot : ∀ a b : SortKey × ExampleRow, keyLE a.1 b.1 = false → keyLE b.1 a.1 = true :=
    fun _ _ => keyLE_total
  have hperm : List.Perm (isortLe (fun a b => keyLE a.1 b.1) keyed) keyed :=
    isortLe_perm _ keyed
  have hsorted : sorted = (isortLe (fun a b => keyLE a.1 b.1) keyed).map Prod.snd := hF.symm
  have hmemsort : ∀ x ∈ isortLe (fun a b => keyLE a.1 b.1) keyed,
      natural_sort_key x.2.identifier = .ok x.1 :=
    fun x hx => hmem x (hperm.mem_iff.mp hx)
  have hpw : (isortLe (fun a b => keyLE a.1 b.1) keyed).Pairwise
      (fun a b => keyLE a.1 b.1 = true) := pairwise_isortLe htrans htot keyed
  refine ⟨?_, ?_, ?_, ?_, by decide⟩
  · rw [hsorted, ← hmap]
    exact hperm.map Prod.snd
  · rw [hsorted, List.pairwise_map]
    refine List.Pairwise.imp_of_mem ?_ hpw
    intro a b ha hb hab ka kb hka hkb
    have h1 := hmemsort a ha
    have h2 := hmemsort b hb
    rw [h1] at hka
    rw [h2] at hkb
    cases Except.ok.inj hka
    cases Except.ok.inj hkb
    exact hab
  · intro k
    rw [hsorted, ← hmap, List.filter_map, List.filter_map]
    have e1 : (isortLe (fun a b => keyLE a.1 b.1) keyed).filter
          ((fun r => decide (natural_sort_key r.identifier = .ok k)) ∘ Prod.snd) =
        (isortLe (fun a b => keyLE a.1 b.1) keyed).filter (fun x => decide (x.1 = k)) := by
      refine List.filter_congr ?_
      intro x hx
      simp [Function.comp, hmemsort x hx]
    have e2 : keyed.filter
          ((fun r => decide (natural_sort_key r.identifier = .ok k)) ∘ Prod.snd) =
        keyed.filter (fun x => decide (x.1 = k)) := by
      refine List.filter_congr ?_
      intro x hx
      simp [Function.comp, hmem x hx]
    have e3 : (isortLe (fun a b => keyLE a.1 b.1) keyed).filter (fun x => decide (x.1 = k)) =
        keyed.filter (fun x => decide (x.1 = k)) := by
      refine filter_isortLe _ ?_ keyed
      intro a b ha hb
      have ha2 : a.1 = k := of_decide_eq_true ha
      have hb2 : b.1 = k := of_decide_eq_true hb
      rw [ha2, hb2]
      exact keyLE_refl k
    rw [e1, e3, ← e2]
  · rw [hsorted, List.pairwise_map]
    refine List.Pairwise.imp_of_mem ?_ hpw
    intro a b ha hb hab hda
    have h1 := hmemsort a ha
    have h2 := hmemsort b hb
    cases hdb : pyIsdigit b.2.identifier with
    | false => rfl
    | true =>
        exfalso
        rw [natural_sort_key, hda] at h1
        simp only [Bool.false_eq_true, if_false] at h1
        rw [natural_sort_key, hdb] at h2
        simp only [if_true] at h2
        cases hpi : pyInt b.2.identifier with
        | none => rw [hpi] at h2; cases h2
        | some n =>
            rw [hpi] at h2
            have e1 : a.1 = SortKey.textual a.2.identifier := (Except.ok.inj h1).symm
            have e2 : b.1 = SortKey.numeric n := (Except.ok.inj h2).symm
            rw [e1, e2] at hab
            simp [keyLE] at hab

/-- Witness for C3: at the concrete row list with identifiers
`["10","2","a","1"]` the sort succeeds and its output is a permutation of
the input. -/
theorem c3_witness :
    List.Perm
      ([⟨"1", 69, "n", "q"⟩, ⟨"2", 69, "n", "q"⟩, ⟨"10", 69, "n", "q"⟩,
        ⟨"a", 69, "n", "q"⟩] : List ExampleRow)
      ([⟨"10", 69, "n", "q"⟩, ⟨"2", 69, "n", "q"⟩, ⟨"a", 69, "n", "q"⟩,
        ⟨"1", 69, "n", "q"⟩] : List ExampleRow) :=
  (c3_natural_sort _ _ (by decide)).1

/-- Counterexample to C4 as stated: with comments `[""(no tag), "x"(no tag)]`
the claim says the name is the text of the first literal (the empty string),
but `pick_comment` remembers the empty first literal as fallback, the
Python truthiness test `if fallback:` then fails, and the file's base name
is returned instead. -/
theorem c4_counterexample :
    pick_comment [PyTerm.lit "" none, PyTerm.lit "x" none] "base" = "base" ∧
    ("base" : String) ≠ "" := by
  decide

/-- C4 (amended): name resolution returns the text of the first `en`-tagged
comment literal when one exists; otherwise the text of the first comment
literal encountered in iteration order, provided that text is non-empty —
an empty first literal (Python falsiness) makes the result fall back to the
file's base name, as does the complete absence of comment literals.  The
`en` preference holds regardless of the other comments. -/
theorem c4_name_resolution (comments : List PyTerm) (stem : String) :
    (∀ pre t post, comments = pre ++ PyTerm.lit t (some "en") :: post →
      (∀ c ∈ pre, ∀ u, c ≠ PyTerm.lit u (some "en")) →
      pick_comment comments stem = t) ∧
    (∀ pre t lang post, comments = pre ++ PyTerm.lit t lang :: post →
      (∀ c ∈ pre, ∀ u v, c ≠ PyTerm.lit u v) →
      (∀ c ∈ comments, ∀ u, c ≠ PyTerm.lit u (some "en")) →
      pick_comment comments stem = if t = "" then stem else t) ∧
    ((∀ c ∈ comments, ∀ u v, c ≠ PyTerm.lit u v) →
      pick_comment comments stem = stem) := by
  refine ⟨?_, ?_, ?_⟩
  · intro pre t post hc hpre
    rw [pick_comment, hc]
    exact pickCommentAux_en_first stem t post pre none hpre
  · intro pre t lang post hc hpre hen
    rw [pick_comment, hc, pickCommentAux_skip_nonlit stem _ pre none hpre]
    have hlang : ¬(lang = some "en") := fun hl =>
      hen (PyTerm.lit t lang) (hc ▸ List.mem_append_right pre (List.mem_cons_self _ _)) t
        (by rw [hl])
    simp only [pickCommentAux, hlang, if_false]
    refine pickCommentAux_no_en_some stem t post ?_
    intro c hcp u
    exact hen c (hc ▸ List.mem_append_right pre (List.mem_cons_of_mem _ hcp)) u
  · intro hnl
    rw [pick_comment, ← List.append_nil comments,
      pickCommentAux_skip_nonlit stem [] comments none hnl]
    rfl

/-- Witness for C4 at concrete inputs: the `en`-tagged comment wins over an
earlier French one; with only untagged comments the first non-empty text
wins; with no literal comments the stem is returned. -/
theorem c4_witness :
    pick_comment [PyTerm.lit "bonjour" (some "fr"), PyTerm.lit "hello" (some "en")] "f" =
      "hello" ∧
    pick_comment [PyTerm.lit "first" none, PyTerm.lit "second" none] "f" = "first" ∧
    pick_comment [PyTerm.uri "http://e/x"] "f" = "f" := by
  refine ⟨?_, ?_, ?_⟩
  · exact (c4_name_resolution _ "f").1 [PyTerm.lit "bonjour" (some "fr")] "hello" [] rfl
      (by simp)
  · have h := (c4_name_resolution
        [PyTerm.lit "first" none, PyTerm.lit "second" none] "f").2.1 [] "first" none
        [PyTerm.lit "second" none] rfl (by simp) (by simp)
    simpa using h
  · exact (c4_name_resolution [PyTerm.uri "http://e/x"] "f").2.2 (by simp)

theorem renderCsv_cons (x : List String) (xs : List (List String)) :
    renderCsv (x :: xs) = renderRow x ++ renderCsv xs := by
  apply String.ext
  simp [renderCsv, String.join_eq, String.data_append]

/-- C5: the emitted output consists of the exact six-column header record
`id,backend,name,query,Structure of sortKey [idcode],sortKey` (every field
quoted, record terminated by `\n`) followed by one record per example row,
each record being the six fields `[identifier-or-empty, backendId as decimal
text, name, query, "", "~"]`, every field quoted and each record terminated
by `\n`.  (The `utf-8` byte encoding of the emitted text lives below the
string level of this model.) -/
theorem c5_csv_output (d : String) (fs : Option (List DirEntry)) (b : Int) (p : Bool)
    (out : String) (h : runMain d fs b p = .ok out) :
    ∃ rows : List ExampleRow,
      out = "\"id\",\"backend\",\"name\",\"query\",\"Structure of sortKey [idcode]\",\"sortKey\"\n"
          ++ renderCsv (rows.map fun r => r.as_csv_row !p) ∧
      (∀ r : ExampleRow, ∀ keep : Bool,
        r.as_csv_row keep = [if keep then r.identifier else "", toString r.backend_id,
          r.name, r.query, "", "~"]) ∧
      (∀ fields : List String, renderRow fields =
        String.intercalate "," (fields.map fun f0 => "\"" ++ csvEscape f0 ++ "\"") ++ "\n") := by
  obtain ⟨rows, hrows, hout⟩ := except_map_ok h
  refine ⟨rows, ?_, fun r keep => rfl, fun fields => rfl⟩
  rw [← hout, renderCsv_cons]
  congr 1

/-- Witness for C5: one directory entry `a.ttl` holding one executable
subject with a `sh:select` body produces exactly the header record plus one
data record. -/
theorem c5_witness :
    ∃ rows : List ExampleRow,
      ("\"id\",\"backend\",\"name\",\"query\",\"Structure of sortKey [idcode]\",\"sortKey\"\n\"1\",\"69\",\"a\",\"SELECT\",\"\",\"~\"\n" : String)
        = "\"id\",\"backend\",\"name\",\"query\",\"Structure of sortKey [idcode]\",\"sortKey\"\n"
          ++ renderCsv (rows.map fun r => r.as_csv_row !false) ∧
      (∀ r : ExampleRow, ∀ keep : Bool,
        r.as_csv_row keep = [if keep then r.identifier else "", toString r.backend_id,
          r.name, r.query, "", "~"]) ∧
      (∀ fields : List String, renderRow fields =
        String.intercalate "," (fields.map fun f0 => "\"" ++ csvEscape f0 ++ "\"") ++ "\n") :=
  c5_csv_output "d"
    (some [⟨"a.ttl", true,
      [⟨.uri "http://e/q#1", .rdfType, shSPARQLExecutable⟩,
       ⟨.uri "http://e/q#1", .shSelect, .lit "SELECT" none⟩]⟩])
    69 false _ (by decide)

/-- C6: with `--prefix-id-in-title` enabled, the run produces exactly the
rows of the plain run, in the same order (the sort key was computed from the
original identifier before the rewrite), with every name rewritten to
`"ex:" + identifier + " " + original name`; in the emitted CSV projection
the identifier column of every data row is the empty string and the name
column carries the rewritten title. -/
theorem c6_title_rewrite (d : String) (fs : Option (List DirEntry)) (b : Int)
    (r0 : List ExampleRow) (h : finalRows d fs b false = .ok r0) :
    finalRows d fs b true = .ok (r0.map titleWithId) ∧
    (∀ r : ExampleRow, (titleWithId r).name = "ex:" ++ r.identifier ++ " " ++ r.name ∧
      (titleWithId r).identifier = r.identifier ∧ (titleWithId r).query = r.query) ∧
    (r0.map titleWithId).map ExampleRow.identifier = r0.map ExampleRow.identifier ∧
    (∀ r : ExampleRow, ((titleWithId r).as_csv_row false).head? = some "" ∧
      ((titleWithId r).as_csv_row false)[2]? = some ("ex:" ++ r.identifier ++ " " ++ r.name)) := by
  obtain ⟨rows, hrows, hr0⟩ := except_map_ok h
  simp only [Bool.false_eq_true, if_false] at hr0
  subst hr0
  refine ⟨?_, fun r => ⟨rfl, rfl, rfl⟩, ?_, fun r => ⟨rfl, rfl⟩⟩
  · rw [finalRows, hrows]
    rfl
  · simp [List.map_map, Function.comp, titleWithId]

/-- Witness for C6: the single-row run of the C5 witness, with the flag
enabled, yields the same single row with the rewritten name. -/
theorem c6_witness :
    finalRows "d"
      (some [⟨"a.ttl", true,
        [⟨.uri "http://e/q#1", .rdfType, shSPARQLExecutable⟩,
         ⟨.uri "http://e/q#1", .shSelect, .lit "SELECT" none⟩]⟩])
      69 true = .ok [⟨"1", 69, "ex:1 a", "SELECT"⟩] :=
  (c6_title_rewrite "d"
    (some [⟨"a.ttl", true,
      [⟨.uri "http://e/q#1", .rdfType, shSPARQLExecutable⟩,
       ⟨.uri "http://e/q#1", .shSelect, .lit "SELECT" none⟩]⟩])
    69 [⟨"1", 69, "a", "SELECT"⟩] (by decide)).1

/-- C7: if the input directory does not exist, or it exists but no immediate
file entry has a name ending in `.ttl` (case-insensitively), the run aborts
with the corresponding descriptive `SystemExit` message (non-zero exit) and
no output is produced — in the model the error is raised strictly before the
output value is ever constructed. -/
theorem c7_discovery_failures (d : String) (b : Int) (p : Bool) :
    runMain d none b p = .error ("Directory not found: " ++ d) ∧
    (∀ entries : List DirEntry,
      (∀ e ∈ entries, ¬(e.isFile = true ∧ endsWithCI e.name ".ttl")) →
      runMain d (some entries) b p = .error ("No .ttl files found in " ++ d)) := by
  constructor
  · rfl
  · intro entries hnone
    have hfilter : ttlFilter entries = [] := by
      rw [ttlFilter, List.filter_eq_nil_iff]
      intro e he
      intro hkeep
      simp only [Bool.and_eq_true] at hkeep
      rcases hkeep with ⟨hfile, hsfx⟩
      exact hnone e he ⟨hfile, map_lower_suffix_ttl e.name (of_decide_eq_true hsfx)⟩
    rw [runMain, finalRows, sortedRows, sortedTtlEntries, hfilter]
    rfl

/-- Witness for C7: a missing directory and a directory holding only a
non-`.ttl` file both abort with their messages. -/
theorem c7_witness :
    runMain "dir" none 69 false = .error "Directory not found: dir" ∧
    runMain "dir" (some [⟨"notes.txt", true, []⟩]) 69 false =
      .error "No .ttl files found in dir" := by
  constructor
  · exact (c7_discovery_failures "dir" 69 false).1
  · exact (c7_discovery_failures "dir" 69 false).2 [⟨"notes.txt", true, []⟩] (by decide)

/-- Counterexample to C8 as stated: a subject whose `rdfs:comment` is an
empty `en`-tagged literal and whose `sh:select` body is the empty literal is
materialized as a row with empty `name` and empty `query`, contradicting the
claimed non-emptiness of both fields. -/
theorem c8_counterexample :
    iter_examples
      [⟨.uri "http://e/q#1", .rdfType, shSPARQLExecutable⟩,
       ⟨.uri "http://e/q#1", .shSelect, .lit "" none⟩,
       ⟨.uri "http://e/q#1", .rdfsComment, .lit "" (some "en")⟩]
      "d/f.ttl" "f" 69 =
      .ok [{ identifier := "1", backend_id := 69, name := "", query := "" }] := by
  decide

/-- C8 (amended): every materialized `ExampleRow` has a non-empty
`identifier` (the file stem backing the fallback is non-empty for any file
that passed the `.ttl` filter); `name` and `query` are the resolved texts
and may be empty exactly when the underlying literals are empty; and an
entity lacking any resolvable query text is a fatal per-file error — the
iteration never returns a row list — not a skipped row. -/
theorem c8_row_invariants (g : Graph) (f stem : String) (b : Int) (hstem : stem ≠ "") :
    (∀ rows, iter_examples g f stem b = .ok rows → ∀ r ∈ rows, r.identifier ≠ "") ∧
    (∀ s, s ∈ executableSubjects g → objectsOf g s .shSelect = [] →
      objectsOf g s .shAsk = [] → objectsOf g s .shConstruct = [] →
      objectsOf g s .spexDescribe = [] →
      ∀ rows, iter_examples g f stem b ≠ .ok rows) := by
  constructor
  · intro rows hok r hr
    obtain ⟨s, _, q, _, hrow⟩ := iter_examples_row_shape g f stem b rows hok r hr
    rw [hrow]
    exact extract_identifier_ne_empty (pyStr s) stem hstem
  · intro s hs h1 h2 h3 h4
    exact iter_examples_no_query g f stem b s hs h1 h2 h3 h4

/-- Witness for C8: the extracted row of the one-subject graph has a
non-empty identifier, and a graph whose executable subject has no query
predicate at all never yields a row list. -/
theorem c8_witness :
    ({ identifier := "1", backend_id := 69, name := "a", query := "SELECT" } :
      ExampleRow).identifier ≠ "" ∧
    (∀ rows, iter_examples [⟨.uri "http://e/q#2", .rdfType, shSPARQLExecutable⟩]
      "d/a.ttl" "a" 69 ≠ .ok rows) := by
  constructor
  · exact (c8_row_invariants
      [⟨.uri "http://e/q#1", .rdfType, shSPARQLExecutable⟩,
       ⟨.uri "http://e/q#1", .shSelect, .lit "SELECT" none⟩]
      "d/a.ttl" "a" 69 (by decide)).1
      [{ identifier := "1", backend_id := 69, name := "a", query := "SELECT" }]
      (by decide) _ (List.mem_singleton.mpr rfl)
  · exact (c8_row_invariants [⟨.uri "http://e/q#2", .rdfType, shSPARQLExecutable⟩]
      "d/a.ttl" "a" 69 (by decide)).2 (.uri "http://e/q#2")
      (by decide) (by decide) (by decide) (by decide) (by decide)

/-- C9 (code defect): the natural-sort key function is not total.  Python's
`str.isdigit` accepts the superscript digit `²` (`U+00B2`, Unicode property
`Numeric_Type=Digit`) but `int()` rejects it, so `natural_sort_key "²"`
raises `ValueError` instead of producing the textual-tier key the spec's
total two-tier comparison calls for, and a run whose rows contain such an
identifier (a legal Turtle IRI fragment, e.g. `<http://e/q#²>`) aborts in
the global sort. -/
theorem c9_superscript_crash :
    pyIsdigit "²" = true ∧
    natural_sort_key "²" = .error "invalid literal for int() with base 10: ²" ∧
    sortKeyed [⟨"²", 69, "n", "q"⟩] = .error "invalid literal for int() with base 10: ²" ∧
    natural_sort_key "10" = .ok (.numeric 10) ∧
    natural_sort_key "a" = .ok (.textual "a") := by
  decide

/-- C10: an empty-text comment literal that is not tagged `en` leaves the
fallback empty, so a subject all of whose comments are non-literal nodes or
empty non-`en` literals resolves to the file's base name; by contrast the
first `en`-tagged literal is returned immediately even when its text is
empty, giving the empty name. -/
theorem c10_empty_comment_semantics (stem : String) (comments : List PyTerm) :
    ((∀ c ∈ comments, ∀ t lang, c = PyTerm.lit t lang → t = "" ∧ lang ≠ some "en") →
      pick_comment comments stem = stem) ∧
    (∀ pre post, comments = pre ++ PyTerm.lit "" (some "en") :: post →
      (∀ c ∈ pre, ∀ u, c ≠ PyTerm.lit u (some "en")) →
      pick_comment comments stem = "") := by
  constructor
  · intro h
    exact pickCommentAux_empty_all stem comments none (Or.inl rfl) h
  · intro pre post hc hpre
    rw [pick_comment, hc]
    exact pickCommentAux_en_first stem "" post pre none hpre

/-- Witness for C10: a non-literal comment plus an empty untagged literal
yield the stem, while an empty `en`-tagged literal after a French comment
yields the empty name. -/
theorem c10_witness :
    pick_comment [PyTerm.uri "http://e/x", PyTerm.lit "" none] "stem0" = "stem0" ∧
    pick_comment [PyTerm.lit "z" (some "fr"), PyTerm.lit "" (some "en")] "stem0" = "" := by
  constructor
  · refine (c10_empty_comment_semantics "stem0" _).1 ?_
    intro c hc t lang he
    rcases List.mem_cons.mp hc with rfl | hc2
    · cases he
    · rcases List.mem_singleton.mp hc2 with rfl
      cases he
      exact ⟨rfl, by simp⟩
  · exact (c10_empty_comment_semantics "stem0" _).2 [PyTerm.lit "z" (some "fr")] [] rfl
      (by simp)
